import Mathlib

set_option maxHeartbeats 1000000

/-!
Shallow embedding of the neural-mechanics trajectory-analysis core
(`metrics/rescale.py`, `visualizations/utils.py`, `visualizations/inversion.py`).

Floating-point scalars are modelled as exact rationals extended with a single
non-finite element `F.nan` (standing for NaN and the infinities); arithmetic
on the non-finite element is absorbing, mirroring IEEE NaN propagation.
Transcendental functions (`np.exp`, `np.cos`, `np.sin`, `np.sqrt`) are
abstract function parameters collected in `MathFns`; the only law recorded is
`exp 0 = 1`, which holds exactly for `np.exp`.
-/

/-- Idealised floating-point scalar: an exact rational or a non-finite value. -/
inductive F where
  | fin (q : ℚ)
  | nan
deriving DecidableEq

def F.add : F → F → F
  | .fin a, .fin b => .fin (a + b)
  | _, _ => .nan

def F.mul : F → F → F
  | .fin a, .fin b => .fin (a * b)
  | _, _ => .nan

def F.neg : F → F
  | .fin a => .fin (-a)
  | .nan => .nan

def F.sub : F → F → F
  | .fin a, .fin b => .fin (a - b)
  | _, _ => .nan

/-- Division; a zero divisor yields a non-finite result, as in IEEE arithmetic. -/
def F.div : F → F → F
  | .fin a, .fin b => if b = 0 then .nan else .fin (a / b)
  | _, _ => .nan

instance : Add F := ⟨F.add⟩
instance : Mul F := ⟨F.mul⟩
instance : Neg F := ⟨F.neg⟩
instance : Sub F := ⟨F.sub⟩
instance : Div F := ⟨F.div⟩
instance : Zero F := ⟨F.fin 0⟩
instance : One F := ⟨F.fin 1⟩
instance (n : Nat) : OfNat F (n + 2) := ⟨F.fin (OfNat.ofNat (n + 2))⟩

/-- Python `x ** n` on scalars; note `nan ** 0 = 1`, as in numpy. -/
def F.pow : F → Nat → F
  | _, 0 => 1
  | x, n + 1 => F.pow x n * x

instance : HPow F Nat F := ⟨F.pow⟩

/-- `np.isfinite` on a scalar. -/
def F.isFinite : F → Bool
  | .fin _ => true
  | .nan => false

/-- Floating-point `<`; comparisons involving a non-finite value are false. -/
def F.lt : F → F → Bool
  | .fin a, .fin b => decide (a < b)
  | _, _ => false

/-- Floating-point `==`; comparisons involving a non-finite value are false. -/
def F.beq : F → F → Bool
  | .fin a, .fin b => decide (a = b)
  | _, _ => false

theorem F.add_def (a b : F) : a + b = F.add a b := rfl

theorem F.mul_def (a b : F) : a * b = F.mul a b := rfl

theorem F.zero_def : (0 : F) = F.fin 0 := rfl

theorem F.one_def : (1 : F) = F.fin 1 := rfl

instance : AddCommMonoid F where
  add_assoc a b c := by
    cases a <;> cases b <;> cases c <;> simp [F.add_def, F.add, add_assoc]
  zero_add a := by cases a <;> simp [F.add_def, F.add, F.zero_def]
  add_zero a := by cases a <;> simp [F.add_def, F.add, F.zero_def]
  add_comm a b := by
    cases a <;> cases b <;> simp [F.add_def, F.add, add_comm]
  nsmul := nsmulRec

theorem F.one_mul (a : F) : (1 : F) * a = a := by
  cases a <;> simp [F.mul_def, F.mul, F.one_def]

/-- Embedding of a `Nat` training step into the scalar type. -/
def natF (n : Nat) : F := F.fin n

/-- The abstract transcendental functions used through `numpy`. -/
structure MathFns where
  exp : F → F
  cos : F → F
  sin : F → F
  sqrt : F → F
  exp_zero : exp 0 = 1

/-- A trivial instantiation of the transcendental functions (all constantly 1),
used to evaluate the embedding on concrete inputs. -/
def Mtriv : MathFns :=
  { exp := fun _ => 1, cos := fun _ => 1, sin := fun _ => 1, sqrt := fun _ => 1,
    exp_zero := rfl }

/-- Weight tensors appearing in the analysed models: rank-2 (fully connected)
or rank-4 (convolutional), as lists of lists of scalars. -/
inductive WT where
  | r2 (m : List (List F))
  | r4 (m : List (List (List (List F))))
deriving DecidableEq

def WT.mapF (f : F → F) : WT → WT
  | .r2 m => .r2 (m.map (fun row => row.map f))
  | .r4 m => .r4 (m.map (fun a3 => a3.map (fun a2 => a2.map (fun a1 => a1.map f))))

/-- Elementwise `W ** 2`. -/
def WT.sq (W : WT) : WT := W.mapF (fun x => x ^ 2)

/-- Scalar times tensor, elementwise. -/
def WT.smul (c : F) (W : WT) : WT := W.mapF (fun x => c * x)

/-- Elementwise tensor addition (`+=` on same-shaped numpy arrays); a rank
mismatch never happens on well-formed stores and returns the left operand. -/
def WT.add : WT → WT → WT
  | .r2 a, .r2 b => .r2 (List.zipWith (fun r s => List.zipWith (· + ·) r s) a b)
  | .r4 a, .r4 b =>
      .r4 (List.zipWith
        (fun x y => List.zipWith
          (fun u v => List.zipWith (fun r s => List.zipWith (· + ·) r s) u v) x y) a b)
  | a, _ => a

/-- `np.all(np.isfinite(W))`. -/
def WT.allFinite : WT → Bool
  | .r2 m => m.all (fun r => r.all F.isFinite)
  | .r4 m => m.all (fun a3 => a3.all (fun a2 => a2.all (fun a1 => a1.all F.isFinite)))

/-- `np.all(np.isfinite(v))` for a rank-1 array. -/
def allFiniteV (v : List F) : Bool := v.all F.isFinite

def sumF (v : List F) : F := v.sum

def sum2 (m : List (List F)) : F := (m.map sumF).sum

def sum3 (m : List (List (List F))) : F := (m.map sum2).sum

/-- Elementwise addition of equal-length vectors. -/
def addV (u v : List F) : List F := List.zipWith (· + ·) u v

/-- Elementwise subtraction of equal-length vectors. -/
def subV (u v : List F) : List F := List.zipWith (· - ·) u v

/-- Scalar times vector. -/
def smulV (c : F) (v : List F) : List F := v.map (fun x => c * x)

/-- Elementwise `v ** 2` on a rank-1 array. -/
def sqV (v : List F) : List F := v.map (fun x => x ^ 2)

/-- `np.sum(m, axis=0)` for a (rectangular, nonempty) rank-2 array. -/
def sumAxis0 : List (List F) → List F
  | [] => []
  | [r] => r
  | r :: rs => addV r (sumAxis0 rs)

/-- `in_synapses` from `src/visualizations/utils.py`: rank-4 sums axes
`(1,2,3)`, otherwise (rank-2) sums `axis=1`; the bias is then added. -/
def in_synapses (W : WT) (b : Option (List F)) : List F :=
  let in_sum := match W with
    | .r4 m => m.map sum3
    | .r2 m => m.map sumF
  match b with
  | some bv => addV in_sum bv
  | none => in_sum

/-- `out_synapses` from `src/visualizations/utils.py`: rank-4 sums axes
`(0,2,3)`, otherwise (rank-2) sums `axis=0`; the `b` argument is unused. -/
def out_synapses (W : WT) (b : Option (List F)) : List F :=
  match W with
  | .r4 m => sumAxis0 (m.map (fun a3 => a3.map sum2))
  | .r2 m => sumAxis0 m

/-- Conversion of a double to extended precision is exact, so on ideal
scalars the `np.float128` cast is the identity. -/
def np_float128 : F → F := fun x => x

/-- Modelled from the spec: `metrics.helper.in_synapses` (the module
`metrics/helper.py` is not part of the given sources).  Same reduction as
`in_synapses`, but tolerating an overridden floating-point precision: the
reduction is performed after casting every element to the requested dtype. -/
def in_synapses_h (W : WT) (b : Option (List F)) (dtype : Option (F → F)) : List F :=
  let c := dtype.getD id
  let in_sum := match W with
    | .r4 m => m.map (fun a3 => sum3 (a3.map (fun a2 => a2.map (fun a1 => a1.map c))))
    | .r2 m => m.map (fun row => sumF (row.map c))
  match b with
  | some bv => addV in_sum (bv.map c)
  | none => in_sum

/-- Modelled from the spec: `metrics.helper.out_synapses`, with an optional
dtype override; the `b` argument is unused, as in the source. -/
def out_synapses_h (W : WT) (b : Option (List F)) (dtype : Option (F → F)) : List F :=
  let c := dtype.getD id
  match W with
  | .r4 m => sumAxis0 (m.map (fun a3 => a3.map (fun a2 => sum2 (a2.map (fun a1 => a1.map c)))))
  | .r2 m => sumAxis0 (m.map (fun row => row.map c))

/-- The static architecture-to-layer-name mapping `MODELS` from
`src/visualizations/utils.py`, as an ordered association list. -/
def MODELS : List (String × List (String × String)) :=
  [("logistic", [("1", "classifier")]),
   ("fc",
     [("1", "fc1"), ("3", "fc2"), ("5", "fc3"), ("7", "fc4"), ("9", "fc5"),
      ("11", "classifier")]),
   ("fc-bn",
     [("1", "fc1"), ("2", "bn1"), ("4", "fc2"), ("5", "bn2"), ("7", "fc3"),
      ("8", "bn3"), ("10", "fc4"), ("11", "bn4"), ("13", "fc5"), ("14", "bn5"),
      ("16", "classifier")]),
   ("vgg16",
     [("features.0", "conv1"), ("features.2", "conv2"), ("features.5", "conv3"),
      ("features.7", "conv4"), ("features.10", "conv5"), ("features.12", "conv6"),
      ("features.14", "conv7"), ("features.17", "conv8"), ("features.19", "conv9"),
      ("features.21", "conv10"), ("features.24", "conv11"), ("features.26", "conv12"),
      ("features.28", "conv13"), ("classifier.0", "fc1"), ("classifier.3", "fc2"),
      ("classifier.6", "classifier")]),
   ("vgg16-bn",
     [("features.0", "conv1"), ("features.1", "bn1"), ("features.3", "conv2"),
      ("features.4", "bn2"), ("features.7", "conv3"), ("features.8", "bn3"),
      ("features.10", "conv4"), ("features.11", "bn4"), ("features.14", "conv5"),
      ("features.15", "bn5"), ("features.17", "conv6"), ("features.18", "bn6"),
      ("features.20", "conv7"), ("features.21", "bn7"), ("features.24", "conv8"),
      ("features.25", "bn8"), ("features.27", "conv9"), ("features.28", "bn9"),
      ("features.30", "conv10"), ("features.31", "bn10"), ("features.34", "conv11"),
      ("features.35", "bn11"), ("features.37", "conv12"), ("features.38", "bn12"),
      ("features.40", "conv13"), ("features.41", "bn13"), ("classifier.0", "fc1"),
      ("classifier.3", "fc2"), ("classifier.6", "classifier")])]

/-- `get_layers(model) = MODELS[model].values()`; an unknown model raises
KeyError in Python and yields the empty list here. -/
def get_layers (model : String) : List String :=
  ((MODELS.lookup model).getD []).map Prod.snd

/-- Python substring test `pat in s`. -/
def strContains (s pat : String) : Bool := (s.splitOn pat).length > 1

/-- One address in the on-disk feature store: a tensor is identified by the
store root, model, group, tensor-name suffix, step label and layer. -/
structure Key where
  featsDir : String
  model : String
  group : String
  suffix : String
  step : String
  layer : String
deriving DecidableEq

/-- Modelled from the spec: the contents of the per-step snapshot files read
by `metrics.helper.load_features` (the module `metrics/helper.py` is not part
of the given sources).  Weight-suffixed names hold rank-2/rank-4 arrays and
bias-suffixed names hold rank-1 arrays; the success path of the reader is a
total lookup, and its failures (missing file, missing key) abort the whole
run and are outside the claims settled against this model. -/
structure Store where
  w : Key → WT
  b : Key → List F

/-- Modelled from the spec: `metrics.helper.load_features` for a weight-like
suffix, as the mapping layer ↦ step label ↦ tensor that it returns. -/
def load_features_w (st : Store) (steps : List String) (featsDir model suffix group : String) :
    String → String → WT :=
  fun layer lbl => st.w ⟨featsDir, model, group, suffix, lbl, layer⟩

/-- Modelled from the spec: `metrics.helper.load_features` for a bias-like
suffix. -/
def load_features_b (st : Store) (steps : List String) (featsDir model suffix group : String) :
    String → String → List F :=
  fun layer lbl => st.b ⟨featsDir, model, group, suffix, lbl, layer⟩

/-- The `load_kwargs` dictionary threaded through the orchestrator. -/
structure LoadKwargs where
  model : String
  featsDir : String
  group : String

/-- A trajectory mapping: layer name ↦ step ↦ stored projection vector. -/
def Traj : Type := String → Nat → Option (List F)

/-- `theoretical[layer][step] = v`. -/
def Traj.update (tr : Traj) (layer : String) (step : Nat) (v : List F) : Traj :=
  fun l s => if l = layer ∧ s = step then some v else tr l s

/-- The per-layer loop of `compute_empirical` (`metrics/rescale.py`,
lines 11-18), carrying `W_in`/`b_in` across the layer chain. -/
def ce_go (step : Nat) (lbl : String) (weights : String → String → WT)
    (biases : String → String → List F) (Win : WT) (bin : List F) (emp : Traj) :
    List String → Traj
  | [] => emp
  | layer :: rest =>
      let Wout := (weights layer lbl).sq
      let bout := sqV (biases layer lbl)
      ce_go step lbl weights biases Wout bout
        (emp.update layer step
          (subV (out_synapses_h Wout none none) (in_synapses_h Win (some bin) none)))
        rest

/-- `compute_empirical` from `metrics/rescale.py` (lines 6-18). -/
def compute_empirical (st : Store) (step : Nat) (layers : List String)
    (lk : LoadKwargs) (empirical : Traj) : Traj :=
  let weights := load_features_w st [toString step] lk.featsDir lk.model "weight" lk.group
  let biases := load_features_b st [toString step] lk.featsDir lk.model "bias" lk.group
  let lbl := "step_" ++ toString step
  match layers with
  | [] => empirical
  | l0 :: rest =>
      ce_go step lbl weights biases ((weights l0 lbl).sq) (sqV (biases l0 lbl)) empirical rest

/-- The evolved squared weight quantity built per layer by
`compute_theoretical` (`metrics/rescale.py`, lines 33-47): the decayed squared
initial condition plus, when `i > 0`, the scaled integral-buffer correction. -/
def ctQW (i : Nat) (lr e : F) (W0 wbuf : String → String → WT)
    (lbl0 lbl : String) (layer : String) : WT :=
  let base := WT.smul e ((W0 layer lbl0).sq)
  if 0 < i then base.add (WT.smul (lr ^ 2 * e) (wbuf layer lbl)) else base

/-- The evolved squared bias quantity built per layer by `compute_theoretical`
(`metrics/rescale.py`, lines 34-47). -/
def ctQB (i : Nat) (lr e : F) (b0 bbuf : String → String → List F)
    (lbl0 lbl : String) (layer : String) : List F :=
  let base := smulV e (sqV (b0 layer lbl0))
  if 0 < i then addV base (smulV (lr ^ 2 * e) (bbuf layer lbl)) else base

/-- The per-layer loop of `compute_theoretical` (`metrics/rescale.py`,
lines 40-52): `e` is `np.exp(-2*wd*t)`, `wbuf`/`bbuf` are the loaded
integral-buffer dictionaries (only consulted when `i > 0`). -/
def ct_go (step : Nat) (i : Nat) (lr e : F) (lbl0 lbl : String)
    (W0 : String → String → WT) (b0 : String → String → List F)
    (wbuf : String → String → WT) (bbuf : String → String → List F)
    (Win : WT) (bin : List F) (tr : Traj) : List String → Traj
  | [] => tr
  | layer :: rest =>
      let Wout := ctQW i lr e W0 wbuf lbl0 lbl layer
      let bout := ctQB i lr e b0 bbuf lbl0 lbl layer
      ct_go step i lr e lbl0 lbl W0 b0 wbuf bbuf Wout bout
        (tr.update layer step
          (subV (out_synapses_h Wout none none) (in_synapses_h Win (some bin) none)))
        rest

/-- `compute_theoretical` from `metrics/rescale.py` (lines 21-52); the second
component records the buffer `load_features` calls that were performed. -/
def compute_theoretical (M : MathFns) (st : Store) (step : Nat) (layers : List String)
    (lk : LoadKwargs) (theoretical : Traj) (i stepZero : Nat) (lr wd : F)
    (W0 : String → String → WT) (b0 : String → String → List F) :
    Traj × List (String × String) :=
  let t := lr * natF step
  let loads := if 0 < i then
      [("weight.integral_buffer", lk.group), ("bias.integral_buffer", lk.group)]
    else []
  let wbuf := load_features_w st [toString step] lk.featsDir lk.model
      "weight.integral_buffer" lk.group
  let bbuf := load_features_b st [toString step] lk.featsDir lk.model
      "bias.integral_buffer" lk.group
  let e := M.exp (-(2 : F) * wd * t)
  let lbl0 := "step_" ++ toString stepZero
  let lbl := "step_" ++ toString step
  match layers with
  | [] => (theoretical, loads)
  | l0 :: rest =>
      let Win := ctQW i lr e W0 wbuf lbl0 lbl l0
      let bin := ctQB i lr e b0 bbuf lbl0 lbl l0
      (ct_go step i lr e lbl0 lbl W0 b0 wbuf bbuf Win bin theoretical rest, loads)

/-- The homogeneous damping-regime envelope of
`compute_theoretical_momentum` (`metrics/rescale.py`, lines 98-112). -/
def momentumScaleHom (M : MathFns) (gamma omega t : F) : F :=
  if F.lt gamma omega then
    let cos := M.cos (M.sqrt (omega ^ 2 - gamma ^ 2) * t)
    let sin := M.sin (M.sqrt (omega ^ 2 - gamma ^ 2) * t)
    M.exp (-gamma * t) * (cos + gamma / M.sqrt (omega ^ 2 - gamma ^ 2) * sin)
  else if F.beq gamma omega then
    M.exp (-gamma * t) * (1 + gamma * t)
  else
    let alpha_p := -gamma + M.sqrt (gamma ^ 2 - omega ^ 2)
    let alpha_m := -gamma - M.sqrt (gamma ^ 2 - omega ^ 2)
    let numer := alpha_p * M.exp (alpha_m * t) - alpha_m * M.exp (alpha_p * t)
    let denom := alpha_p - alpha_m
    numer / denom

/-- The first inhomogeneous impulse-response factor of
`compute_theoretical_momentum` (`metrics/rescale.py`, lines 128-141). -/
def momentumScale1 (M : MathFns) (gamma omega t : F) : F :=
  if F.lt gamma omega then
    let sqrt := M.sqrt (omega ^ 2 - gamma ^ 2)
    M.exp (-gamma * t) * M.sin (sqrt * t) / sqrt
  else if F.beq gamma omega then
    M.exp (-gamma * t) * t
  else
    let sqrt := M.sqrt (gamma ^ 2 - omega ^ 2)
    let alpha_p := -gamma + sqrt
    let alpha_m := -gamma - sqrt
    M.exp (alpha_p * t) / (alpha_p - alpha_m)

/-- The second inhomogeneous impulse-response factor of
`compute_theoretical_momentum` (`metrics/rescale.py`, lines 128-142). -/
def momentumScale2 (M : MathFns) (gamma omega t : F) : F :=
  if F.lt gamma omega then
    let sqrt := M.sqrt (omega ^ 2 - gamma ^ 2);
    -M.exp (-gamma * t) * M.cos (sqrt * t) / sqrt
  else if F.beq gamma omega then
    -M.exp (-gamma * t)
  else
    let sqrt := M.sqrt (gamma ^ 2 - omega ^ 2);
    let alpha_p := -gamma + sqrt
    let alpha_m := -gamma - sqrt;
    -M.exp (alpha_m * t) / (alpha_p - alpha_m)

/-- The value stored for one layer by `compute_theoretical_momentum`
(`metrics/rescale.py`, lines 98-171): the homogeneous term from the carried
`W_in`/`b_in`, then `+=` of each inhomogeneous correction term, each guarded
by finiteness of all of its constituent buffer tensors. -/
def ctmStep (M : MathFns) (step : Nat) (i : Nat) (lr dampening omega gamma t : F)
    (lbl0 lbl : String)
    (W0 : String → String → WT)
    (wb1 : String → String → WT) (bb1 : String → String → List F)
    (wb2 : String → String → WT) (bb2 : String → String → List F)
    (Win : WT) (bin : List F)
    (gWin1 : WT) (gbin1 : List F) (gWin2 : WT) (gbin2 : List F)
    (layer : String) : List F :=
  let Wout := (W0 layer lbl0).sq
  let scale := momentumScaleHom M gamma omega t
  let v := smulV scale
    (subV (out_synapses_h Wout none (some np_float128))
          (in_synapses_h Win (some bin) (some np_float128)))
  if 0 < i then
    let gWout1 := wb1 layer lbl
    let gWout2 := wb2 layer lbl
    let scale_1 := momentumScale1 M gamma omega t
    let scale_2 := momentumScale2 M gamma omega t
    let scale' := lr * (1 - dampening) * 2
    let v1 :=
      if gWout1.allFinite && gWin1.allFinite && allFiniteV gbin1 then
        addV v (smulV (scale' * scale_1)
          (subV (out_synapses_h gWout1 none (some np_float128))
                (in_synapses_h gWin1 (some gbin1) (some np_float128))))
      else v
    let v2 :=
      if gWout2.allFinite && gWin2.allFinite && allFiniteV gbin2 then
        addV v1 (smulV (scale' * scale_2)
          (subV (out_synapses_h gWout2 none (some np_float128))
                (in_synapses_h gWin2 (some gbin2) (some np_float128))))
      else v1
    v2
  else v

/-- The per-layer loop of `compute_theoretical_momentum`
(`metrics/rescale.py`, lines 94-176).  The accumulator carries `W_in`,
`b_in` and the four previous-layer buffer tensors; the buffer dictionaries
`wb1`/`bb1`/`wb2`/`bb2` are consulted only when `i > 0`, in which case the
buffer carry advances to the current layer. -/
def ctm_go (M : MathFns) (step : Nat) (i : Nat) (lr dampening omega gamma t : F)
    (lbl0 lbl : String)
    (W0 : String → String → WT) (b0 : String → String → List F)
    (wb1 : String → String → WT) (bb1 : String → String → List F)
    (wb2 : String → String → WT) (bb2 : String → String → List F)
    (Win : WT) (bin : List F)
    (gWin1 : WT) (gbin1 : List F) (gWin2 : WT) (gbin2 : List F)
    (tr : Traj) : List String → Traj
  | [] => tr
  | layer :: rest =>
      let Wout := (W0 layer lbl0).sq
      let bout := sqV (b0 layer lbl0)
      let v := ctmStep M step i lr dampening omega gamma t lbl0 lbl W0
        wb1 bb1 wb2 bb2 Win bin gWin1 gbin1 gWin2 gbin2 layer
      let tr1 := tr.update layer step v
      if 0 < i then
        ctm_go M step i lr dampening omega gamma t lbl0 lbl W0 b0 wb1 bb1 wb2 bb2
          Wout bout (wb1 layer lbl) (bb1 layer lbl) (wb2 layer lbl) (bb2 layer lbl)
          tr1 rest
      else
        ctm_go M step i lr dampening omega gamma t lbl0 lbl W0 b0 wb1 bb1 wb2 bb2
          Wout bout gWin1 gbin1 gWin2 gbin2 tr1 rest

/-- `compute_theoretical_momentum` from `metrics/rescale.py` (lines 55-176);
the second component records the buffer `load_features` calls performed. -/
def compute_theoretical_momentum (M : MathFns) (st : Store) (step : Nat)
    (layers : List String) (lk : LoadKwargs) (theoretical : Traj) (i stepZero : Nat)
    (lr wd momentum dampening omega gamma : F)
    (W0 : String → String → WT) (b0 : String → String → List F) :
    Traj × List (String × String) :=
  let t := lr * (1 - dampening) * natF step
  let loads := if 0 < i then
      [("weight.integral_buffer_1", lk.group), ("bias.integral_buffer_1", lk.group),
       ("weight.integral_buffer_2", lk.group), ("bias.integral_buffer_2", lk.group)]
    else []
  let wb1 := load_features_w st [toString step] lk.featsDir lk.model
      "weight.integral_buffer_1" lk.group
  let bb1 := load_features_b st [toString step] lk.featsDir lk.model
      "bias.integral_buffer_1" lk.group
  let wb2 := load_features_w st [toString step] lk.featsDir lk.model
      "weight.integral_buffer_2" lk.group
  let bb2 := load_features_b st [toString step] lk.featsDir lk.model
      "bias.integral_buffer_2" lk.group
  let lbl0 := "step_" ++ toString stepZero
  let lbl := "step_" ++ toString step
  match layers with
  | [] => (theoretical, loads)
  | l0 :: rest =>
      let Win := (W0 l0 lbl0).sq
      let bin := sqV (b0 l0 lbl0)
      let gWin1 := wb1 l0 lbl
      let gbin1 := bb1 l0 lbl
      let gWin2 := wb2 l0 lbl
      let gbin2 := bb2 l0 lbl
      (ctm_go M step i lr dampening omega gamma t lbl0 lbl W0 b0 wb1 bb1 wb2 bb2
        Win bin gWin1 gbin1 gWin2 gbin2 theoretical rest, loads)

/-- The result record returned by the orchestrators. -/
structure RescaleResult where
  empirical : Traj
  theoretical : Traj

/-- The step loop of `rescale` (`metrics/rescale.py`, lines 213-219). -/
def rescale_loop (M : MathFns) (st : Store) (model featsDir : String)
    (layers : List String) (stepZero : Nat) (lr wd : F)
    (W0 : String → String → WT) (b0 : String → String → List F)
    (i : Nat) (steps : List Nat) (theoretical empirical : Traj) : Traj × Traj :=
  match steps with
  | [] => (theoretical, empirical)
  | step :: rest =>
      let theoretical' := (compute_theoretical M st step layers
        ⟨model, featsDir, "buffers"⟩ theoretical i stepZero lr wd W0 b0).1
      let empirical' := compute_empirical st step layers
        ⟨model, featsDir, "params"⟩ empirical
      rescale_loop M st model featsDir layers stepZero lr wd W0 b0
        (i + 1) rest theoretical' empirical'

/-- `rescale` from `metrics/rescale.py` (lines 179-221). -/
def rescale (M : MathFns) (st : Store) (model featsDir : String)
    (steps : List Nat) (lr wd : F) : RescaleResult :=
  let layers := (get_layers model).filter (fun l => strContains l "conv")
  let W0 := load_features_w st [toString (steps.headI)] featsDir model "weight" "params"
  let b0 := load_features_b st [toString (steps.headI)] featsDir model "bias" "params"
  let maps := rescale_loop M st model featsDir layers (steps.headI) lr wd W0 b0
    0 steps (fun _ _ => none) (fun _ _ => none)
  { empirical := maps.2, theoretical := maps.1 }

/-- The derived constants `gamma` and `omega` of `rescale_momentum`
(`metrics/rescale.py`, lines 235-237). -/
def rescaleMomentumConstants (M : MathFns) (lr wd momentum dampening : F) : F × F :=
  let denom := lr * (1 - dampening) * (1 + momentum)
  ((1 - momentum) / denom, M.sqrt (4 * wd / denom))

/-- The step loop of `rescale_momentum` (`metrics/rescale.py`, lines 273-281). -/
def rescale_momentum_loop (M : MathFns) (st : Store) (model featsDir : String)
    (layers : List String) (stepZero : Nat) (lr wd momentum dampening omega gamma : F)
    (W0 : String → String → WT) (b0 : String → String → List F)
    (i : Nat) (steps : List Nat) (theoretical empirical : Traj) : Traj × Traj :=
  match steps with
  | [] => (theoretical, empirical)
  | step :: rest =>
      let theoretical' := (compute_theoretical_momentum M st step layers
        ⟨model, featsDir, "buffers"⟩ theoretical i stepZero
        lr wd momentum dampening omega gamma W0 b0).1
      let empirical' := compute_empirical st step layers
        ⟨model, featsDir, "params"⟩ empirical
      rescale_momentum_loop M st model featsDir layers stepZero
        lr wd momentum dampening omega gamma W0 b0 (i + 1) rest theoretical' empirical'

/-- `rescale_momentum` from `metrics/rescale.py` (lines 224-283); the
`np.float128` conversions of the four hyperparameters are exact on ideal
scalars. -/
def rescale_momentum (M : MathFns) (st : Store) (model featsDir : String)
    (steps : List Nat) (lr wd momentum dampening : F) : RescaleResult :=
  let gw := rescaleMomentumConstants M lr wd momentum dampening
  let gamma := gw.1
  let omega := gw.2
  let layers := (get_layers model).filter (fun l => strContains l "conv")
  let W0 := load_features_w st [toString (steps.headI)] featsDir model "weight" "params"
  let b0 := load_features_b st [toString (steps.headI)] featsDir model "bias" "params"
  let maps := rescale_momentum_loop M st model featsDir layers (steps.headI)
    lr wd momentum dampening omega gamma W0 b0
    0 steps (fun _ _ => none) (fun _ _ => none)
  { empirical := maps.2, theoretical := maps.1 }

/-- Python exceptions observable in `src/visualizations/utils.py`. -/
inductive PyErr where
  | nameError (n : String)
  | keyError (k : String)
  | assertionError (msg : String)
deriving DecidableEq

/-- An HDF5 snapshot file: group name ↦ dataset name ↦ stored array. -/
def H5 (α : Type) : Type := List (String × List (String × α))

/-- A filesystem: path ↦ the snapshot file stored there, if any. -/
def FileSys (α : Type) : Type := String → Option (H5 α)

/-- The key-extraction loop of `get_features`
(`src/visualizations/utils.py`, lines 163-170): `open_file[group][in_key]`
is looked up for each pair, raising `KeyError` on a missing group or key. -/
def gf_loop (α : Type) (file : H5 α) (group : String) :
    List (String × String) → Except PyErr (List (String × α))
  | [] => .ok []
  | (in_key, out_key) :: rest =>
      match file.lookup group with
      | none => .error (.keyError group)
      | some g =>
          match g.lookup in_key with
          | none => .error (.keyError in_key)
          | some v =>
              match gf_loop α file group rest with
              | .error e => .error e
              | .ok out => .ok ((out_key, v) :: out)

/-- `get_features` from `src/visualizations/utils.py` (lines 134-174).
`keys` arrives already iterable; the `verbose` printing is omitted. -/
def get_features (α : Type) (fs : FileSys α) (feats_path group : String)
    (keys : List String) (out_keys : Option (List String)) :
    Except PyErr (List (String × α)) :=
  match fs feats_path with
  | none => .error (.assertionError (feats_path ++ " is not a file"))
  | some file =>
      let oks := out_keys.getD keys
      if keys.length = oks.length then
        gf_loop α file group (keys.zip oks)
      else
        .error (.assertionError "Number of keys does not match number of output keys")

/-- `load_features` from `src/visualizations/utils.py` (lines 176-197).
For each step the path `feats_dir/step{step}.h5` is computed, but the guard
on the next source line reads `if os.path.isfile(pth):` and the name `pth`
has no binding anywhere in the module, so the first loop iteration raises
`NameError` before any file is consulted. -/
def load_features (α : Type) (fs : FileSys α) (steps : List String)
    (feats_dir model suffix group : String) :
    Except PyErr (List (String × List (String × α))) :=
  match MODELS.lookup model with
  | none => .error (.keyError model)
  | some lm =>
      let names := lm.map (fun p => p.1 ++ "." ++ suffix)
      let layers := lm.map Prod.snd
      let feats : List (String × List (String × α)) := layers.map (fun l => (l, []))
      match steps with
      | [] => .ok feats
      | step :: _ =>
          let feats_path := feats_dir ++ "/step" ++ step ++ ".h5"
          .error (.nameError "pth")

/-- The per-layer loop of the theoretical computation of `statistics` in
`src/visualizations/inversion.py` (lines 58-70); the synapse reductions are
the module-local `in_synapses`/`out_synapses` (no dtype override). -/
def inv_go (step : Nat) (i : Nat) (lr e : F) (lbl0 lbl : String)
    (weights : String → String → WT) (biases : String → String → List F)
    (weight_buffers : String → String → WT) (bias_buffers : String → String → List F)
    (Win : WT) (bin : List F) (tr : Traj) : List String → Traj
  | [] => tr
  | layer :: rest =>
      let Wout0 := WT.smul e ((weights layer lbl0).sq)
      let bout0 := smulV e (sqV (biases layer lbl0))
      let Wout := if 0 < i then Wout0.add (WT.smul (lr * e) (weight_buffers layer lbl)) else Wout0
      let bout := if 0 < i then addV bout0 (smulV (lr * e) (bias_buffers layer lbl)) else bout0
      inv_go step i lr e lbl0 lbl weights biases weight_buffers bias_buffers Wout bout
        (tr.update layer step (subV (out_synapses Wout none) (in_synapses Win (some bin))))
        rest

/-- The theoretical per-step computation of `statistics` in
`src/visualizations/inversion.py` (lines 31-70), as a function of the
feature dictionaries that its `load_features` calls would return: note the
buffer correction is scaled by `lr`, not `lr ** 2`. -/
def inversion_theoretical_step (M : MathFns) (step : Nat) (i : Nat) (stepZero : Nat)
    (lr wd : F) (weights : String → String → WT) (biases : String → String → List F)
    (weight_buffers : String → String → WT) (bias_buffers : String → String → List F)
    (layers : List String) (theoretical : Traj) : Traj :=
  let t := lr * natF step
  let e := M.exp (-(2 : F) * wd * t)
  let lbl0 := "step_" ++ toString stepZero
  let lbl := "step_" ++ toString step
  match layers with
  | [] => theoretical
  | l0 :: rest =>
      let Win0 := WT.smul e ((weights l0 lbl0).sq)
      let bin0 := smulV e (sqV (biases l0 lbl0))
      let Win := if 0 < i then Win0.add (WT.smul (lr * e) (weight_buffers l0 lbl)) else Win0
      let bin := if 0 < i then addV bin0 (smulV (lr * e) (bias_buffers l0 lbl)) else bin0
      inv_go step i lr e lbl0 lbl weights biases weight_buffers bias_buffers
        Win bin theoretical rest

/-- C1 claim-side quantity: `exp(-2*wd*t) * Q(0)` plus, for `i > 0`,
`lr^2 * exp(-2*wd*t)` times the integral-buffer tensor loaded for the step,
with `t = lr * step` (weight variant). -/
def claimQW (M : MathFns) (st : Store) (lk : LoadKwargs) (i step stepZero : Nat)
    (lr wd : F) (W0 : String → String → WT) (layer : String) : WT :=
  let t := lr * natF step
  let decayed := WT.smul (M.exp (-(2 : F) * wd * t))
    ((W0 layer ("step_" ++ toString stepZero)).sq)
  if 0 < i then
    decayed.add (WT.smul (lr ^ 2 * M.exp (-(2 : F) * wd * t))
      (st.w ⟨lk.featsDir, lk.model, lk.group, "weight.integral_buffer",
        "step_" ++ toString step, layer⟩))
  else decayed

/-- C1 claim-side quantity, bias variant. -/
def claimQB (M : MathFns) (st : Store) (lk : LoadKwargs) (i step stepZero : Nat)
    (lr wd : F) (b0 : String → String → List F) (layer : String) : List F :=
  let t := lr * natF step
  let decayed := smulV (M.exp (-(2 : F) * wd * t))
    (sqV (b0 layer ("step_" ++ toString stepZero)))
  if 0 < i then
    addV decayed (smulV (lr ^ 2 * M.exp (-(2 : F) * wd * t))
      (st.b ⟨lk.featsDir, lk.model, lk.group, "bias.integral_buffer",
        "step_" ++ toString step, layer⟩))
  else decayed

/-- The homogeneous scale factor exactly as the specification words it:
`exp(-gamma*t)*(cos(w*t) + (gamma/w)*sin(w*t))` with `w = sqrt(omega^2-gamma^2)`
when `gamma < omega`; `exp(-gamma*t)*(1 + gamma*t)` when `gamma == omega`;
`(alpha_p*exp(alpha_m*t) - alpha_m*exp(alpha_p*t))/(alpha_p - alpha_m)` with
`alpha_p = -gamma+sqrt(gamma^2-omega^2)`, `alpha_m = -gamma-sqrt(gamma^2-omega^2)`
when `gamma > omega`, the regime chosen by exact comparison. -/
def specScaleHom (M : MathFns) (gamma omega t : F) : F :=
  if F.lt gamma omega then
    let w := M.sqrt (omega ^ 2 - gamma ^ 2)
    M.exp (-gamma * t) * (M.cos (w * t) + gamma / w * M.sin (w * t))
  else if F.beq gamma omega then
    M.exp (-gamma * t) * (1 + gamma * t)
  else
    let alpha_p := -gamma + M.sqrt (gamma ^ 2 - omega ^ 2)
    let alpha_m := -gamma - M.sqrt (gamma ^ 2 - omega ^ 2);
    (alpha_p * M.exp (alpha_m * t) - alpha_m * M.exp (alpha_p * t)) / (alpha_p - alpha_m)

/-- `gamma` exactly as the specification words it. -/
def specGamma (lr momentum dampening : F) : F :=
  (1 - momentum) / (lr * (1 - dampening) * (1 + momentum))

/-- `omega` exactly as the specification words it. -/
def specOmega (M : MathFns) (lr wd momentum dampening : F) : F :=
  M.sqrt (4 * wd / (lr * (1 - dampening) * (1 + momentum)))

/-- The `integral_buffer_1` weight tensor the momentum solver loads for a
layer at a step (through the spec-modelled reader). -/
def mBuf1W (st : Store) (lk : LoadKwargs) (step : Nat) (layer : String) : WT :=
  st.w ⟨lk.featsDir, lk.model, lk.group, "weight.integral_buffer_1",
    "step_" ++ toString step, layer⟩

/-- The `integral_buffer_1` bias tensor the momentum solver loads. -/
def mBuf1B (st : Store) (lk : LoadKwargs) (step : Nat) (layer : String) : List F :=
  st.b ⟨lk.featsDir, lk.model, lk.group, "bias.integral_buffer_1",
    "step_" ++ toString step, layer⟩

/-- The `integral_buffer_2` weight tensor the momentum solver loads. -/
def mBuf2W (st : Store) (lk : LoadKwargs) (step : Nat) (layer : String) : WT :=
  st.w ⟨lk.featsDir, lk.model, lk.group, "weight.integral_buffer_2",
    "step_" ++ toString step, layer⟩

/-- The `integral_buffer_2` bias tensor the momentum solver loads. -/
def mBuf2B (st : Store) (lk : LoadKwargs) (step : Nat) (layer : String) : List F :=
  st.b ⟨lk.featsDir, lk.model, lk.group, "bias.integral_buffer_2",
    "step_" ++ toString step, layer⟩

theorem Traj.update_self (tr : Traj) (l : String) (s : Nat) (v : List F) :
    Traj.update tr l s v l s = some v := by
  simp [Traj.update]

theorem Traj.update_ne_layer (tr : Traj) (l : String) (s : Nat) (v : List F)
    (l' : String) (s' : Nat) (h : l' ≠ l) :
    Traj.update tr l s v l' s' = tr l' s' := by
  simp [Traj.update, h]

theorem ct_go_preserve (step i : Nat) (lr e : F) (lbl0 lbl : String)
    (W0 : String → String → WT) (b0 : String → String → List F)
    (wbuf : String → String → WT) (bbuf : String → String → List F)
    (rest : List String) :
    ∀ (Win : WT) (bin : List F) (tr : Traj) (l : String) (s : Nat), l ∉ rest →
      ct_go step i lr e lbl0 lbl W0 b0 wbuf bbuf Win bin tr rest l s = tr l s := by
  induction rest with
  | nil => intro Win bin tr l s h; rfl
  | cons layer rest ih =>
      intro Win bin tr l s h
      simp only [ct_go]
      rw [ih _ _ _ _ _ (fun hm => h (List.mem_cons_of_mem _ hm))]
      exact Traj.update_ne_layer tr layer step _ l s
        (fun he => h (he ▸ List.mem_cons_self _ _))

theorem ct_go_stored (step i : Nat) (lr e : F) (lbl0 lbl : String)
    (W0 : String → String → WT) (b0 : String → String → List F)
    (wbuf : String → String → WT) (bbuf : String → String → List F)
    (rest : List String) :
    ∀ (prev : String) (tr : Traj) (k : Nat), rest.Nodup → k < rest.length →
      ct_go step i lr e lbl0 lbl W0 b0 wbuf bbuf
        (ctQW i lr e W0 wbuf lbl0 lbl prev) (ctQB i lr e b0 bbuf lbl0 lbl prev)
        tr rest (rest.getD k "") step =
      some (subV
        (out_synapses_h (ctQW i lr e W0 wbuf lbl0 lbl (rest.getD k "")) none none)
        (in_synapses_h (ctQW i lr e W0 wbuf lbl0 lbl ((prev :: rest).getD k ""))
          (some (ctQB i lr e b0 bbuf lbl0 lbl ((prev :: rest).getD k ""))) none)) := by
  induction rest with
  | nil => intro prev tr k hnd hk; exact absurd hk (by simp)
  | cons c rest ih =>
      intro prev tr k hnd hk
      rcases List.nodup_cons.1 hnd with ⟨hc, hrest⟩
      cases k with
      | zero =>
          simp only [ct_go, List.getD_cons_zero]
          rw [ct_go_preserve step i lr e lbl0 lbl W0 b0 wbuf bbuf rest _ _ _ _ _ hc]
          exact Traj.update_self tr c step _
      | succ k =>
          simp only [ct_go, List.getD_cons_succ]
          exact ih c _ k hrest (Nat.lt_of_succ_lt_succ hk)

theorem ctQW_eq_claimQW (M : MathFns) (st : Store) (lk : LoadKwargs)
    (i step stepZero : Nat) (lr wd : F) (W0 : String → String → WT) (layer : String) :
    ctQW i lr (M.exp (-(2 : F) * wd * (lr * natF step))) W0
      (load_features_w st [toString step] lk.featsDir lk.model "weight.integral_buffer" lk.group)
      ("step_" ++ toString stepZero) ("step_" ++ toString step) layer
    = claimQW M st lk i step stepZero lr wd W0 layer := rfl

theorem ctQB_eq_claimQB (M : MathFns) (st : Store) (lk : LoadKwargs)
    (i step stepZero : Nat) (lr wd : F) (b0 : String → String → List F) (layer : String) :
    ctQB i lr (M.exp (-(2 : F) * wd * (lr * natF step))) b0
      (load_features_b st [toString step] lk.featsDir lk.model "bias.integral_buffer" lk.group)
      ("step_" ++ toString stepZero) ("step_" ++ toString step) layer
    = claimQB M st lk i step stepZero lr wd b0 layer := rfl

/-- C1: in `compute_theoretical`, with `t = lr * step`, every evolved squared
quantity equals `exp(-2*wd*t)` times the squared step-zero initial tensor
plus, when `i > 0`, `lr^2 * exp(-2*wd*t)` times the integral-buffer tensor
loaded for that step (`claimQW`/`claimQB`); the stored trajectory value for
each non-first layer is `out_synapses(Q_out) - in_synapses(Q_in, bias_Q_in)`;
and when `i == 0` no buffer loads are performed. -/
theorem claim_C1 (M : MathFns) (st : Store) (lk : LoadKwargs) (tr : Traj)
    (step i stepZero : Nat) (lr wd : F)
    (W0 : String → String → WT) (b0 : String → String → List F)
    (l0 : String) (rest : List String) (hnd : rest.Nodup)
    (k : Nat) (hk : k < rest.length) :
    ((compute_theoretical M st step (l0 :: rest) lk tr i stepZero lr wd W0 b0).1
        (rest.getD k "") step =
      some (subV
        (out_synapses_h (claimQW M st lk i step stepZero lr wd W0 (rest.getD k "")) none none)
        (in_synapses_h (claimQW M st lk i step stepZero lr wd W0 ((l0 :: rest).getD k ""))
          (some (claimQB M st lk i step stepZero lr wd b0 ((l0 :: rest).getD k ""))) none)))
    ∧ (i = 0 →
      (compute_theoretical M st step (l0 :: rest) lk tr i stepZero lr wd W0 b0).2 = []) := by
  constructor
  · have h := ct_go_stored step i lr (M.exp (-(2 : F) * wd * (lr * natF step)))
      ("step_" ++ toString stepZero) ("step_" ++ toString step) W0 b0
      (load_features_w st [toString step] lk.featsDir lk.model "weight.integral_buffer" lk.group)
      (load_features_b st [toString step] lk.featsDir lk.model "bias.integral_buffer" lk.group)
      rest l0 tr k hnd hk
    rw [ctQW_eq_claimQW, ctQW_eq_claimQW, ctQB_eq_claimQB] at h
    exact h
  · intro hi
    subst hi
    rfl

/-- Empty trajectory, used as the initial map in concrete instances. -/
def trEmpty : Traj := fun _ _ => none

/-- Concrete `load_kwargs` used in concrete instances. -/
def lkTest : LoadKwargs := ⟨"model", "dir", "buffers"⟩

/-- Concrete feature store used in concrete instances: the buffer tensors of
layer `b` are the 1x1 matrix `[[1]]`, every other weight tensor is `[[0]]`,
and every bias-like tensor is `[0]`. -/
def stTest : Store :=
  { w := fun k => if k.layer = "b" then WT.r2 [[1]] else WT.r2 [[0]],
    b := fun _ => [0] }

/-- Concrete step-zero weights: every layer holds the 1x1 matrix `[[1]]`. -/
def W0test : String → String → WT := fun _ _ => WT.r2 [[1]]

/-- Concrete step-zero biases: every layer holds `[0]`. -/
def b0test : String → String → List F := fun _ _ => [0]

theorem claim_C1_witness :
    (["b"] : List String).Nodup ∧ 0 < (["b"] : List String).length ∧
    ((compute_theoretical Mtriv stTest 1 ["a", "b"] lkTest trEmpty 1 0 2 0 W0test b0test).1
        "b" 1 =
      some (subV
        (out_synapses_h (claimQW Mtriv stTest lkTest 1 1 0 2 0 W0test "b") none none)
        (in_synapses_h (claimQW Mtriv stTest lkTest 1 1 0 2 0 W0test "a")
          (some (claimQB Mtriv stTest lkTest 1 1 0 2 0 b0test "a")) none))) := by
  refine ⟨by decide, by decide, ?_⟩
  exact (claim_C1 Mtriv stTest lkTest trEmpty 1 1 0 2 0 W0test b0test
    "a" ["b"] (by decide) 0 (by decide)).1

theorem ctm_go_preserve (M : MathFns) (step i : Nat) (lr dampening omega gamma t : F)
    (lbl0 lbl : String)
    (W0 : String → String → WT) (b0 : String → String → List F)
    (wb1 : String → String → WT) (bb1 : String → String → List F)
    (wb2 : String → String → WT) (bb2 : String → String → List F)
    (rest : List String) :
    ∀ (Win : WT) (bin : List F) (g1 : WT) (gb1 : List F) (g2 : WT) (gb2 : List F)
      (tr : Traj) (l : String) (s : Nat), l ∉ rest →
      ctm_go M step i lr dampening omega gamma t lbl0 lbl W0 b0 wb1 bb1 wb2 bb2
        Win bin g1 gb1 g2 gb2 tr rest l s = tr l s := by
  induction rest with
  | nil => intros; rfl
  | cons layer rest ih =>
      intro Win bin g1 gb1 g2 gb2 tr l s h
      have hne : l ≠ layer := fun he => h (he ▸ List.mem_cons_self _ _)
      have hmem : l ∉ rest := fun hm => h (List.mem_cons_of_mem _ hm)
      simp only [ctm_go]
      by_cases hi : 0 < i
      · simp only [if_pos hi]
        rw [ih _ _ _ _ _ _ _ _ _ hmem]
        exact Traj.update_ne_layer tr layer step _ l s hne
      · simp only [if_neg hi]
        rw [ih _ _ _ _ _ _ _ _ _ hmem]
        exact Traj.update_ne_layer tr layer step _ l s hne

theorem ctm_go_stored_zero (M : MathFns) (step : Nat) (lr dampening omega gamma t : F)
    (lbl0 lbl : String)
    (W0 : String → String → WT) (b0 : String → String → List F)
    (wb1 : String → String → WT) (bb1 : String → String → List F)
    (wb2 : String → String → WT) (bb2 : String → String → List F)
    (rest : List String) :
    ∀ (prev : String) (g1 : WT) (gb1 : List F) (g2 : WT) (gb2 : List F)
      (tr : Traj) (k : Nat), rest.Nodup → k < rest.length →
      ctm_go M step 0 lr dampening omega gamma t lbl0 lbl W0 b0 wb1 bb1 wb2 bb2
        ((W0 prev lbl0).sq) (sqV (b0 prev lbl0)) g1 gb1 g2 gb2 tr rest
        (rest.getD k "") step =
      some (smulV (momentumScaleHom M gamma omega t)
        (subV (out_synapses_h ((W0 (rest.getD k "") lbl0).sq) none (some np_float128))
              (in_synapses_h ((W0 ((prev :: rest).getD k "") lbl0).sq)
                (some (sqV (b0 ((prev :: rest).getD k "") lbl0))) (some np_float128)))) := by
  induction rest with
  | nil => intro prev g1 gb1 g2 gb2 tr k hnd hk; exact absurd hk (by simp)
  | cons c rest ih =>
      intro prev g1 gb1 g2 gb2 tr k hnd hk
      rcases List.nodup_cons.1 hnd with ⟨hc, hrest⟩
      cases k with
      | zero =>
          simp only [ctm_go, List.getD_cons_zero, Nat.lt_irrefl, if_false]
          rw [ctm_go_preserve M step 0 lr dampening omega gamma t lbl0 lbl W0 b0
            wb1 bb1 wb2 bb2 rest _ _ _ _ _ _ _ _ _ hc]
          exact Traj.update_self tr c step _
      | succ k =>
          simp only [ctm_go, List.getD_cons_succ, Nat.lt_irrefl, if_false]
          exact ih c _ _ _ _ _ k hrest (Nat.lt_of_succ_lt_succ hk)

theorem ctm_go_stored_pos (M : MathFns) (step i : Nat) (lr dampening omega gamma t : F)
    (lbl0 lbl : String)
    (W0 : String → String → WT) (b0 : String → String → List F)
    (wb1 : String → String → WT) (bb1 : String → String → List F)
    (wb2 : String → String → WT) (bb2 : String → String → List F)
    (hi : 0 < i) (rest : List String) :
    ∀ (prev : String) (tr : Traj) (k : Nat), rest.Nodup → k < rest.length →
      ctm_go M step i lr dampening omega gamma t lbl0 lbl W0 b0 wb1 bb1 wb2 bb2
        ((W0 prev lbl0).sq) (sqV (b0 prev lbl0))
        (wb1 prev lbl) (bb1 prev lbl) (wb2 prev lbl) (bb2 prev lbl) tr rest
        (rest.getD k "") step =
      some (ctmStep M step i lr dampening omega gamma t lbl0 lbl W0 wb1 bb1 wb2 bb2
        ((W0 ((prev :: rest).getD k "") lbl0).sq)
        (sqV (b0 ((prev :: rest).getD k "") lbl0))
        (wb1 ((prev :: rest).getD k "") lbl) (bb1 ((prev :: rest).getD k "") lbl)
        (wb2 ((prev :: rest).getD k "") lbl) (bb2 ((prev :: rest).getD k "") lbl)
        (rest.getD k "")) := by
  induction rest with
  | nil => intro prev tr k hnd hk; exact absurd hk (by simp)
  | cons c rest ih =>
      intro prev tr k hnd hk
      rcases List.nodup_cons.1 hnd with ⟨hc, hrest⟩
      cases k with
      | zero =>
          simp only [ctm_go, List.getD_cons_zero, if_pos hi]
          rw [ctm_go_preserve M step i lr dampening omega gamma t lbl0 lbl W0 b0
            wb1 bb1 wb2 bb2 rest _ _ _ _ _ _ _ _ _ hc]
          exact Traj.update_self tr c step _
      | succ k =>
          simp only [ctm_go, List.getD_cons_succ, if_pos hi]
          exact ih c _ k hrest (Nat.lt_of_succ_lt_succ hk)

theorem momentumScaleHom_eq_spec (M : MathFns) (gamma omega t : F) :
    momentumScaleHom M gamma omega t = specScaleHom M gamma omega t := rfl

/-- C2: in the momentum solver, the homogeneous scale factor applied to the
(non-decayed) squared initial condition is `specScaleHom`, the spec-worded
envelope chosen by exact comparison of `gamma` and `omega`, evaluated at
`t = lr*(1-dampening)*step`; and `rescale_momentum` derives `gamma` and
`omega` exactly as the specification states them. -/
theorem claim_C2 (M : MathFns) (st : Store) (lk : LoadKwargs) (tr : Traj)
    (step i stepZero : Nat) (lr wd momentum dampening omega gamma : F)
    (W0 : String → String → WT) (b0 : String → String → List F)
    (l0 : String) (rest : List String) (hnd : rest.Nodup)
    (k : Nat) (hk : k < rest.length) (hi : i = 0) :
    ((compute_theoretical_momentum M st step (l0 :: rest) lk tr i stepZero
        lr wd momentum dampening omega gamma W0 b0).1 (rest.getD k "") step =
      some (smulV (specScaleHom M gamma omega (lr * (1 - dampening) * natF step))
        (subV
          (out_synapses_h ((W0 (rest.getD k "") ("step_" ++ toString stepZero)).sq)
            none (some np_float128))
          (in_synapses_h ((W0 ((l0 :: rest).getD k "") ("step_" ++ toString stepZero)).sq)
            (some (sqV (b0 ((l0 :: rest).getD k "") ("step_" ++ toString stepZero))))
            (some np_float128)))))
    ∧ rescaleMomentumConstants M lr wd momentum dampening
        = (specGamma lr momentum dampening, specOmega M lr wd momentum dampening) := by
  subst hi
  constructor
  · have h := ctm_go_stored_zero M step lr dampening omega gamma
      (lr * (1 - dampening) * natF step)
      ("step_" ++ toString stepZero) ("step_" ++ toString step) W0 b0
      (load_features_w st [toString step] lk.featsDir lk.model "weight.integral_buffer_1" lk.group)
      (load_features_b st [toString step] lk.featsDir lk.model "bias.integral_buffer_1" lk.group)
      (load_features_w st [toString step] lk.featsDir lk.model "weight.integral_buffer_2" lk.group)
      (load_features_b st [toString step] lk.featsDir lk.model "bias.integral_buffer_2" lk.group)
      rest l0
      (load_features_w st [toString step] lk.featsDir lk.model "weight.integral_buffer_1" lk.group
        l0 ("step_" ++ toString step))
      (load_features_b st [toString step] lk.featsDir lk.model "bias.integral_buffer_1" lk.group
        l0 ("step_" ++ toString step))
      (load_features_w st [toString step] lk.featsDir lk.model "weight.integral_buffer_2" lk.group
        l0 ("step_" ++ toString step))
      (load_features_b st [toString step] lk.featsDir lk.model "bias.integral_buffer_2" lk.group
        l0 ("step_" ++ toString step))
      tr k hnd hk
    rw [momentumScaleHom_eq_spec] at h
    exact h
  · rfl

theorem claim_C2_witness :
    (["b"] : List String).Nodup ∧ 0 < (["b"] : List String).length ∧
    ((compute_theoretical_momentum Mtriv stTest 0 ["a", "b"] lkTest trEmpty 0 0
        2 0 0 0 1 0 W0test b0test).1 "b" 0 =
      some (smulV (specScaleHom Mtriv 0 1 (2 * (1 - 0) * natF 0))
        (subV
          (out_synapses_h ((W0test "b" "step_0").sq) none (some np_float128))
          (in_synapses_h ((W0test "a" "step_0").sq)
            (some (sqV (b0test "a" "step_0"))) (some np_float128))))) := by
  refine ⟨by decide, by decide, ?_⟩
  exact (claim_C2 Mtriv stTest lkTest trEmpty 0 0 0 2 0 0 0 1 0 W0test b0test
    "a" ["b"] (by decide) 0 (by decide) rfl).1

/-- C3: in the momentum solver, for a step with index `i > 0`, the value
stored for a layer is the homogeneous term plus each of the two inhomogeneous
correction terms, where a correction term is added only if all of its
constituent buffer tensors (the current layer's outgoing weight buffer, the
previous layer's weight buffer and the previous layer's bias buffer) are
finite in every element; a term containing a non-finite value is excluded. -/
theorem claim_C3 (M : MathFns) (st : Store) (lk : LoadKwargs) (tr : Traj)
    (step i stepZero : Nat) (lr wd momentum dampening omega gamma : F)
    (W0 : String → String → WT) (b0 : String → String → List F)
    (l0 : String) (rest : List String) (hnd : rest.Nodup)
    (k : Nat) (hk : k < rest.length) (hi : 0 < i) :
    (compute_theoretical_momentum M st step (l0 :: rest) lk tr i stepZero
        lr wd momentum dampening omega gamma W0 b0).1 (rest.getD k "") step =
      some (
        let cur := rest.getD k ""
        let prev := (l0 :: rest).getD k ""
        let lbl0 := "step_" ++ toString stepZero
        let t := lr * (1 - dampening) * natF step
        let hom := smulV (momentumScaleHom M gamma omega t)
          (subV (out_synapses_h ((W0 cur lbl0).sq) none (some np_float128))
                (in_synapses_h ((W0 prev lbl0).sq) (some (sqV (b0 prev lbl0)))
                  (some np_float128)))
        let corr1 := smulV ((lr * (1 - dampening) * 2) * momentumScale1 M gamma omega t)
          (subV (out_synapses_h (mBuf1W st lk step cur) none (some np_float128))
                (in_synapses_h (mBuf1W st lk step prev)
                  (some (mBuf1B st lk step prev)) (some np_float128)))
        let v1 := if (mBuf1W st lk step cur).allFinite &&
            (mBuf1W st lk step prev).allFinite &&
            allFiniteV (mBuf1B st lk step prev) then addV hom corr1 else hom
        let corr2 := smulV ((lr * (1 - dampening) * 2) * momentumScale2 M gamma omega t)
          (subV (out_synapses_h (mBuf2W st lk step cur) none (some np_float128))
                (in_synapses_h (mBuf2W st lk step prev)
                  (some (mBuf2B st lk step prev)) (some np_float128)))
        if (mBuf2W st lk step cur).allFinite &&
            (mBuf2W st lk step prev).allFinite &&
            allFiniteV (mBuf2B st lk step prev) then addV v1 corr2 else v1) := by
  have h := ctm_go_stored_pos M step i lr dampening omega gamma
    (lr * (1 - dampening) * natF step)
    ("step_" ++ toString stepZero) ("step_" ++ toString step) W0 b0
    (load_features_w st [toString step] lk.featsDir lk.model "weight.integral_buffer_1" lk.group)
    (load_features_b st [toString step] lk.featsDir lk.model "bias.integral_buffer_1" lk.group)
    (load_features_w st [toString step] lk.featsDir lk.model "weight.integral_buffer_2" lk.group)
    (load_features_b st [toString step] lk.featsDir lk.model "bias.integral_buffer_2" lk.group)
    hi rest l0 tr k hnd hk
  simp only [ctmStep, if_pos hi] at h
  exact h

/-- Concrete store whose integral-buffer tensors contain a non-finite value:
every weight-suffixed tensor other than plain `weight` (i.e. every weight
integral buffer) is `[[nan]]`, and plain weights are `[[1]]`. -/
def stNan : Store :=
  { w := fun k => if k.suffix = "weight" then WT.r2 [[1]] else WT.r2 [[F.nan]],
    b := fun _ => [0] }

theorem claim_C3_witness :
    (["b"] : List String).Nodup ∧ 0 < (["b"] : List String).length ∧ 0 < 1 ∧
    ((compute_theoretical_momentum Mtriv stNan 1 ["a", "b"] lkTest trEmpty 1 0
        2 0 0 0 1 0 W0test b0test).1 "b" 1 =
      some (smulV (momentumScaleHom Mtriv 0 1 (2 * (1 - 0) * natF 1))
        (subV (out_synapses_h ((W0test "b" "step_0").sq) none (some np_float128))
          (in_synapses_h ((W0test "a" "step_0").sq)
            (some (sqV (b0test "a" "step_0"))) (some np_float128))))) ∧
    (compute_theoretical_momentum Mtriv stNan 1 ["a", "b"] lkTest trEmpty 1 0
        2 0 0 0 1 0 W0test b0test).1 "b" 1 = some [F.fin 0] := by
  refine ⟨by decide, by decide, by decide, ?_, ?_⟩
  · have h := claim_C3 Mtriv stNan lkTest trEmpty 1 1 0 2 0 0 0 1 0 W0test b0test
      "a" ["b"] (by decide) 0 (by decide) (by decide)
    exact h.trans (by with_unfolding_all rfl)
  · have h := claim_C3 Mtriv stNan lkTest trEmpty 1 1 0 2 0 0 0 1 0 W0test b0test
      "a" ["b"] (by decide) 0 (by decide) (by decide)
    exact h.trans (by with_unfolding_all rfl)

theorem getD_map {α β : Type} (f : α → β) (l : List α) :
    ∀ (i : ℕ), i < l.length → ∀ (d : β) (d' : α), (l.map f).getD i d = f (l.getD i d') := by
  induction l with
  | nil => intro i hi; exact absurd hi (by simp)
  | cons a l ih =>
      intro i hi d d'
      cases i with
      | zero => rfl
      | succ i =>
          simp only [List.map_cons, List.getD_cons_succ]
          exact ih i (Nat.lt_of_succ_lt_succ hi) d d'

theorem sum_getD (l : List F) :
    l.sum = ∑ j in Finset.range l.length, l.getD j 0 := by
  induction l with
  | nil => simp
  | cons a l ih =>
      rw [List.sum_cons, ih, List.length_cons, Finset.sum_range_succ']
      simp only [List.getD_cons_succ, List.getD_cons_zero]
      apply add_comm

theorem sum2_getD (m : List (List F)) :
    sum2 m = ∑ j in Finset.range m.length, (m.getD j []).sum := by
  rw [sum2]
  rw [show (m.map sumF).sum = ∑ j in Finset.range m.length, (m.map sumF).getD j 0 by
    simpa [List.length_map] using sum_getD (m.map sumF)]
  refine Finset.sum_congr rfl (fun j hj => ?_)
  rw [getD_map sumF m j (Finset.mem_range.1 hj) 0 []]
  rfl

theorem sum3_getD (m : List (List (List F))) :
    sum3 m = ∑ j in Finset.range m.length, sum2 (m.getD j []) := by
  rw [sum3]
  rw [show (m.map sum2).sum = ∑ j in Finset.range m.length, (m.map sum2).getD j 0 by
    simpa [List.length_map] using sum_getD (m.map sum2)]
  refine Finset.sum_congr rfl (fun j hj => ?_)
  rw [getD_map sum2 m j (Finset.mem_range.1 hj) 0 []]

theorem addV_getD (u v : List F) :
    ∀ (j : ℕ), j < u.length → j < v.length →
      (addV u v).getD j 0 = u.getD j 0 + v.getD j 0 := by
  induction u generalizing v with
  | nil => intro j hj _; exact absurd hj (by simp)
  | cons a u ih =>
      intro j hju hjv
      cases v with
      | nil => exact absurd hjv (by simp)
      | cons b v =>
          cases j with
          | zero => rfl
          | succ j =>
              simp only [addV, List.zipWith_cons_cons, List.getD_cons_succ]
              exact ih v j (Nat.lt_of_succ_lt_succ hju) (Nat.lt_of_succ_lt_succ hjv)

theorem sumAxis0_length_eq (d : ℕ) :
    ∀ (rows : List (List F)), rows ≠ [] → (∀ r ∈ rows, r.length = d) →
      (sumAxis0 rows).length = d := by
  intro rows
  induction rows with
  | nil => intro h; exact absurd rfl h
  | cons r rows ih =>
      intro _ hrect
      cases rows with
      | nil => exact hrect r (List.mem_cons_self _ _)
      | cons r' rows' =>
          show (addV r (sumAxis0 (r' :: rows'))).length = d
          rw [addV, List.length_zipWith,
            ih (by simp) (fun s hs => hrect s (List.mem_cons_of_mem _ hs)),
            hrect r (List.mem_cons_self _ _), Nat.min_self]

theorem sumAxis0_getD (d : ℕ) :
    ∀ (rows : List (List F)), rows ≠ [] → (∀ r ∈ rows, r.length = d) →
      ∀ (j : ℕ), j < d →
        (sumAxis0 rows).getD j 0 =
          ∑ i in Finset.range rows.length, (rows.getD i []).getD j 0 := by
  intro rows
  induction rows with
  | nil => intro h; exact absurd rfl h
  | cons r rows ih =>
      intro _ hrect j hj
      cases rows with
      | nil =>
          show r.getD j 0 = _
          simp [Finset.sum_range_one]
      | cons r' rows' =>
          show (addV r (sumAxis0 (r' :: rows'))).getD j 0 = _
          have hrect' : ∀ s ∈ r' :: rows', s.length = d :=
            fun s hs => hrect s (List.mem_cons_of_mem _ hs)
          have hR : ∑ i in Finset.range (r :: r' :: rows').length,
                ((r :: r' :: rows').getD i []).getD j 0
              = (∑ i in Finset.range (r' :: rows').length,
                  ((r' :: rows').getD i []).getD j 0) + r.getD j 0 := by
            rw [List.length_cons, Finset.sum_range_succ']
            simp only [List.getD_cons_succ, List.getD_cons_zero]
          rw [hR, addV_getD r (sumAxis0 (r' :: rows')) j
              (by rw [hrect r (List.mem_cons_self _ _)]; exact hj)
              (by rw [sumAxis0_length_eq d (r' :: rows') (by simp) hrect']; exact hj),
            ih (by simp) hrect' j hj]
          apply add_comm

/-- C4: `in_synapses` sums a rank-4 tensor over all axes except axis 0 (the
output-channel axis, kept) and a rank-2 tensor over axis 1, then adds the
bias elementwise when provided; `out_synapses` sums a rank-4 tensor over axes
{0,2,3} and a rank-2 tensor over axis {0}. -/
theorem claim_C4 (m4 : List (List (List (List F)))) (m2 : List (List F))
    (b4 b2 : List F) (d4 d2 : ℕ) :
    (∀ i, i < m4.length →
      (in_synapses (WT.r4 m4) none).getD i 0 =
        ∑ j in Finset.range (m4.getD i []).length,
          ∑ k in Finset.range ((m4.getD i []).getD j []).length,
            ∑ l in Finset.range (((m4.getD i []).getD j []).getD k []).length,
              (((m4.getD i []).getD j []).getD k []).getD l 0)
    ∧ (∀ i, i < m2.length →
      (in_synapses (WT.r2 m2) none).getD i 0 =
        ∑ j in Finset.range (m2.getD i []).length, (m2.getD i []).getD j 0)
    ∧ (in_synapses (WT.r4 m4) (some b4) = addV (in_synapses (WT.r4 m4) none) b4
       ∧ in_synapses (WT.r2 m2) (some b2) = addV (in_synapses (WT.r2 m2) none) b2)
    ∧ (m4 ≠ [] → (∀ a3 ∈ m4, a3.length = d4) → ∀ j, j < d4 →
      (out_synapses (WT.r4 m4) none).getD j 0 =
        ∑ i in Finset.range m4.length,
          ∑ k in Finset.range ((m4.getD i []).getD j []).length,
            ∑ l in Finset.range (((m4.getD i []).getD j []).getD k []).length,
              (((m4.getD i []).getD j []).getD k []).getD l 0)
    ∧ (m2 ≠ [] → (∀ r ∈ m2, r.length = d2) → ∀ j, j < d2 →
      (out_synapses (WT.r2 m2) none).getD j 0 =
        ∑ i in Finset.range m2.length, (m2.getD i []).getD j 0) := by
  refine ⟨?_, ?_, ⟨rfl, rfl⟩, ?_, ?_⟩
  · intro i hi
    show (m4.map sum3).getD i 0 = _
    rw [getD_map sum3 m4 i hi 0 [], sum3_getD]
    refine Finset.sum_congr rfl (fun j hj => ?_)
    rw [sum2_getD]
    refine Finset.sum_congr rfl (fun k hk => ?_)
    exact sum_getD _
  · intro i hi
    show (m2.map sumF).getD i 0 = _
    rw [getD_map sumF m2 i hi 0 []]
    exact sum_getD _
  · intro hne hrect j hj
    show (sumAxis0 (m4.map (fun a3 => a3.map sum2))).getD j 0 = _
    have hne' : m4.map (fun a3 => a3.map sum2) ≠ [] := by
      intro h; exact hne (List.map_eq_nil_iff.1 h)
    have hrect' : ∀ row ∈ m4.map (fun a3 => a3.map sum2), row.length = d4 := by
      intro row hrow
      rcases List.mem_map.1 hrow with ⟨a3, ha3, rfl⟩
      rw [List.length_map]
      exact hrect a3 ha3
    rw [sumAxis0_getD d4 _ hne' hrect' j hj, List.length_map]
    refine Finset.sum_congr rfl (fun i hi => ?_)
    have hi' := Finset.mem_range.1 hi
    rw [getD_map (fun a3 => a3.map sum2) m4 i hi' [] []]
    have hmem : m4.getD i [] ∈ m4 := by
      rw [List.getD_eq_getElem m4 [] hi']
      exact List.getElem_mem hi'
    have hj' : j < (m4.getD i []).length := by
      rw [hrect _ hmem]; exact hj
    rw [getD_map sum2 (m4.getD i []) j hj' 0 [], sum2_getD]
    refine Finset.sum_congr rfl (fun k hk => ?_)
    exact sum_getD _
  · intro hne hrect j hj
    show (sumAxis0 m2).getD j 0 = _
    exact sumAxis0_getD d2 m2 hne hrect j hj

theorem claim_C4_witness :
    (0 < ([[1, 2], [3, 4]] : List (List F)).length) ∧
    (([[1, 2], [3, 4]] : List (List F)) ≠ []) ∧
    (∀ r ∈ ([[1, 2], [3, 4]] : List (List F)), r.length = 2) ∧ (0 < 2) ∧
    ((in_synapses (WT.r2 [[1, 2], [3, 4]]) none).getD 0 0 =
      ∑ j in Finset.range (([[1, 2], [3, 4]] : List (List F)).getD 0 []).length,
        (([[1, 2], [3, 4]] : List (List F)).getD 0 []).getD j 0) ∧
    ((out_synapses (WT.r2 [[1, 2], [3, 4]]) none).getD 0 0 =
      ∑ i in Finset.range ([[1, 2], [3, 4]] : List (List F)).length,
        (([[1, 2], [3, 4]] : List (List F)).getD i []).getD 0 0) :=
  ⟨by decide, by decide, by decide, by decide,
   (claim_C4 [] [[1, 2], [3, 4]] [] [] 0 2).2.1 0 (by decide),
   (claim_C4 [] [[1, 2], [3, 4]] [] [] 0 2).2.2.2.2 (by decide) (by decide) 0 (by decide)⟩

/-- C6: any call of the `visualizations` `load_features` with a non-empty
step list raises `NameError` (for a model present in `MODELS`) before any
snapshot file is consulted — the result does not depend on the filesystem —
and consequently no load through this function can ever succeed on a
non-empty step list. -/
theorem claim_C6 (α : Type) (fs fs' : FileSys α) (steps : List String)
    (feats_dir model suffix group : String)
    (hm : (MODELS.lookup model).isSome) (hs : steps ≠ []) :
    (load_features α fs steps feats_dir model suffix group
      = .error (.nameError "pth"))
    ∧ (load_features α fs steps feats_dir model suffix group
      = load_features α fs' steps feats_dir model suffix group)
    ∧ (∀ (fs₂ : FileSys α) (steps₂ : List String) (dir₂ model₂ suf₂ grp₂ : String),
        steps₂ ≠ [] →
        ∀ res, load_features α fs₂ steps₂ dir₂ model₂ suf₂ grp₂ ≠ .ok res) := by
  obtain ⟨lm, hlm⟩ := Option.isSome_iff_exists.1 hm
  refine ⟨?_, ?_, ?_⟩
  · cases steps with
    | nil => exact absurd rfl hs
    | cons s rest => simp [load_features, hlm]
  · cases steps with
    | nil => exact absurd rfl hs
    | cons s rest => simp [load_features, hlm]
  · intro fs₂ steps₂ dir₂ model₂ suf₂ grp₂ hs₂ res
    cases h : MODELS.lookup model₂ with
    | none => simp [load_features, h]
    | some lm₂ =>
        cases steps₂ with
        | nil => exact absurd rfl hs₂
        | cons s rest => simp [load_features, h]

theorem claim_C6_witness :
    (MODELS.lookup "vgg16").isSome ∧ ((["0"] : List String) ≠ []) ∧
    (load_features Unit (fun _ => none) ["0"] "feats" "vgg16" "weight" "params"
      = .error (.nameError "pth")) :=
  ⟨by decide, by decide,
   (claim_C6 Unit (fun _ => none) (fun _ => none) ["0"] "feats" "vgg16" "weight"
     "params" (by decide) (by decide)).1⟩

/-- C5 evidence: a missing snapshot does not produce the missing-file error.
On an empty filesystem, `load_features` raises `NameError("pth")` instead;
the missing-file assertion lives in `get_features`, which `load_features`
never reaches; and even with the snapshot present the call still raises
`NameError`, so the MissingFile/MissingKey contract is unreachable. -/
theorem claim_C5_evidence :
    (load_features Unit (fun _ => none) ["0"] "feats" "vgg16" "weight" "params"
      = .error (.nameError "pth"))
    ∧ (get_features Unit (fun _ => none) "feats/step0.h5" "params"
        ["features.0.weight"] none
      = .error (.assertionError "feats/step0.h5 is not a file"))
    ∧ (load_features Unit (fun _ => some [("params", [])]) ["0"] "feats" "vgg16"
        "weight" "params" = .error (.nameError "pth")) := by
  exact ⟨rfl, rfl, rfl⟩

/-- Concrete integral-buffer dictionary matching `stTest`: layer `b` holds
`[[1]]`, every other layer `[[0]]`. -/
def wbufTest : String → String → WT :=
  fun l _ => if l = "b" then WT.r2 [[1]] else WT.r2 [[0]]

/-- Concrete bias-buffer dictionary: every layer holds `[0]`. -/
def bbufTest : String → String → List F := fun _ _ => [0]

/-- C7: the two analogous no-momentum theoretical computations diverge: with
the same two-layer chain, the same step-zero tensors, the same (nonzero)
buffer, step index `i = 1` and `lr = 2`, `compute_theoretical` (which scales
the buffer by `lr^2`) and the theoretical loop of `statistics` in
`inversion.py` (which scales it by `lr`) store different values for the same
layer and step. -/
theorem claim_C7 :
    (compute_theoretical Mtriv stTest 1 ["a", "b"] lkTest trEmpty 1 0 2 0
        W0test b0test).1 "b" 1
      ≠ inversion_theoretical_step Mtriv 1 1 0 2 0 W0test b0test wbufTest bbufTest
          ["a", "b"] trEmpty "b" 1 := by
  intro h
  have h1 : (compute_theoretical Mtriv stTest 1 ["a", "b"] lkTest trEmpty 1 0 2 0
      W0test b0test).1 "b" 1 = some [F.fin 4] := by with_unfolding_all rfl
  have h2 : inversion_theoretical_step Mtriv 1 1 0 2 0 W0test b0test wbufTest bbufTest
      ["a", "b"] trEmpty "b" 1 = some [F.fin 2] := by with_unfolding_all rfl
  rw [h1, h2] at h
  exact absurd h (by with_unfolding_all decide)

theorem map_np_float128 (l : List F) : l.map np_float128 = l := List.map_id' l

/-- C8: both synapse aggregation operations accept an overridden
floating-point precision: for every tensor and bias, calling the solver-side
operations with the extended-precision `np.float128` dtype (exact, hence the
identity cast on ideal scalars) succeeds and computes exactly the synapse
reduction, with or without a bias. -/
theorem claim_C8 (W : WT) (b : List F) :
    in_synapses_h W (some b) (some np_float128) = in_synapses W (some b)
    ∧ in_synapses_h W none (some np_float128) = in_synapses W none
    ∧ out_synapses_h W none (some np_float128) = out_synapses W none := by
  refine ⟨?_, ?_, ?_⟩ <;> cases W <;>
    simp [in_synapses_h, out_synapses_h, in_synapses, out_synapses, map_np_float128]

theorem WT.smul_one (W : WT) : WT.smul 1 W = W := by
  cases W <;> simp [WT.smul, WT.mapF, F.one_mul]

theorem smulV_one (v : List F) : smulV 1 v = v := by
  simp [smulV, F.one_mul]

/-- C9: for a two-layer chain with zero weight decay, absent buffers
(`i = 0`) and step 0, the theoretical and the empirical projection agree
exactly, both being `out_synapses` of the squared step-zero weight of the
second layer minus `in_synapses` of the squared step-zero weight and squared
bias of the first layer. -/
theorem claim_C9 (M : MathFns) (st : Store) (lkT lkE : LoadKwargs)
    (trT trE : Traj) (lr : F) (l1 l2 : String)
    (W0 : String → String → WT) (b0 : String → String → List F)
    (hlr : lr.isFinite = true)
    (hW1 : W0 l1 "step_0" = st.w ⟨lkE.featsDir, lkE.model, lkE.group, "weight", "step_0", l1⟩)
    (hW2 : W0 l2 "step_0" = st.w ⟨lkE.featsDir, lkE.model, lkE.group, "weight", "step_0", l2⟩)
    (hb1 : b0 l1 "step_0" = st.b ⟨lkE.featsDir, lkE.model, lkE.group, "bias", "step_0", l1⟩) :
    ((compute_theoretical M st 0 [l1, l2] lkT trT 0 0 lr 0 W0 b0).1 l2 0
      = compute_empirical st 0 [l1, l2] lkE trE l2 0)
    ∧ ((compute_theoretical M st 0 [l1, l2] lkT trT 0 0 lr 0 W0 b0).1 l2 0
      = some (subV (out_synapses_h ((W0 l2 "step_0").sq) none none)
          (in_synapses_h ((W0 l1 "step_0").sq) (some (sqV (b0 l1 "step_0"))) none))) := by
  obtain ⟨q, rfl⟩ : ∃ q, lr = F.fin q := by
    cases lr with
    | fin q => exact ⟨q, rfl⟩
    | nan => exact absurd hlr (by simp [F.isFinite])
  have e0 : ("step_" ++ toString (0 : Nat)) = "step_0" := rfl
  have ht : -(2 : F) * (0 : F) * (F.fin q * natF 0) = 0 := by
    have h2 : (-(2 : F)) = F.fin (-2) := rfl
    simp [h2, F.mul_def, F.mul, natF, F.zero_def]
  have he : M.exp (-(2 : F) * (0 : F) * (F.fin q * natF 0)) = 1 := by
    rw [ht]; exact M.exp_zero
  have hthe : (compute_theoretical M st 0 [l1, l2] lkT trT 0 0 (F.fin q) 0 W0 b0).1 l2 0
      = some (subV (out_synapses_h ((W0 l2 "step_0").sq) none none)
          (in_synapses_h ((W0 l1 "step_0").sq) (some (sqV (b0 l1 "step_0"))) none)) := by
    simp [compute_theoretical, ct_go, ctQW, ctQB, Traj.update, he, e0,
      WT.smul_one, smulV_one]
  have hemp : compute_empirical st 0 [l1, l2] lkE trE l2 0
      = some (subV (out_synapses_h ((W0 l2 "step_0").sq) none none)
          (in_synapses_h ((W0 l1 "step_0").sq) (some (sqV (b0 l1 "step_0"))) none)) := by
    simp [compute_empirical, ce_go, load_features_w, load_features_b, Traj.update, e0]
    rw [← hW1, ← hW2, ← hb1]
  exact ⟨hthe.trans hemp.symm, hthe⟩

/-- `load_kwargs` with the params group, as the orchestrator passes to the
empirical computation. -/
def lkParams : LoadKwargs := ⟨"model", "dir", "params"⟩

/-- Step-zero weights read from `stTest` through the params group. -/
def W0w : String → String → WT :=
  fun l lbl => stTest.w ⟨"dir", "model", "params", "weight", lbl, l⟩

/-- Step-zero biases read from `stTest` through the params group. -/
def b0w : String → String → List F :=
  fun l lbl => stTest.b ⟨"dir", "model", "params", "bias", lbl, l⟩

theorem claim_C9_witness :
    (F.fin 2).isFinite = true ∧
    (W0w "a" "step_0" = stTest.w ⟨lkParams.featsDir, lkParams.model, lkParams.group,
      "weight", "step_0", "a"⟩) ∧
    (W0w "b" "step_0" = stTest.w ⟨lkParams.featsDir, lkParams.model, lkParams.group,
      "weight", "step_0", "b"⟩) ∧
    (b0w "a" "step_0" = stTest.b ⟨lkParams.featsDir, lkParams.model, lkParams.group,
      "bias", "step_0", "a"⟩) ∧
    ((compute_theoretical Mtriv stTest 0 ["a", "b"] lkTest trEmpty 0 0 (F.fin 2) 0
        W0w b0w).1 "b" 0
      = compute_empirical stTest 0 ["a", "b"] lkParams trEmpty "b" 0) :=
  ⟨rfl, rfl, rfl, rfl,
   (claim_C9 Mtriv stTest lkTest lkParams trEmpty trEmpty (F.fin 2) "a" "b" W0w b0w
     rfl rfl rfl rfl).1⟩

/-- C10: the orchestrators are deterministic: two runs of `rescale` and of
`rescale_momentum` on equal inputs (same store contents, model, feature
directory, step list and hyperparameters) return identical empirical and
theoretical mappings. -/
theorem claim_C10 (M : MathFns) (st st' : Store)
    (model model' featsDir featsDir' : String) (steps steps' : List Nat)
    (lr lr' wd wd' momentum momentum' dampening dampening' : F)
    (hst : st = st') (hmodel : model = model') (hdir : featsDir = featsDir')
    (hsteps : steps = steps') (hlr : lr = lr') (hwd : wd = wd')
    (hm : momentum = momentum') (hd : dampening = dampening') :
    rescale M st model featsDir steps lr wd
      = rescale M st' model' featsDir' steps' lr' wd'
    ∧ rescale_momentum M st model featsDir steps lr wd momentum dampening
      = rescale_momentum M st' model' featsDir' steps' lr' wd' momentum' dampening' := by
  subst hst hmodel hdir hsteps hlr hwd hm hd
  exact ⟨rfl, rfl⟩

theorem claim_C10_witness :
    (stTest = stTest) ∧ (([0, 1] : List Nat) = [0, 1]) ∧
    (rescale Mtriv stTest "vgg16" "dir" [0, 1] 2 0
      = rescale Mtriv stTest "vgg16" "dir" [0, 1] 2 0) ∧
    (rescale_momentum Mtriv stTest "vgg16" "dir" [0, 1] 2 0 0 0
      = rescale_momentum Mtriv stTest "vgg16" "dir" [0, 1] 2 0 0 0) :=
  ⟨rfl, rfl,
   (claim_C10 Mtriv stTest stTest "vgg16" "vgg16" "dir" "dir" [0, 1] [0, 1]
     2 2 0 0 0 0 0 0 rfl rfl rfl rfl rfl rfl rfl rfl).1,
   (claim_C10 Mtriv stTest stTest "vgg16" "vgg16" "dir" "dir" [0, 1] [0, 1]
     2 2 0 0 0 0 0 0 rfl rfl rfl rfl rfl rfl rfl rfl).2⟩
